import Mathlib

/-!
Verification of the `memos-api` HTTP client core (`src/memos_api/client.py`)
against its specification.

The shallow embedding below translates, from the source:
  - the exception taxonomy of `src/memos_api/exceptions.py` (`ClientError`);
  - `MemosClient._extract_resource_info` (`extractResourceInfo`), including
    Python's `str.strip`, `str.split` and `str.rstrip` semantics, modelled at
    the character-list level (`pyStripChars`, `splitChars`, `pyRstrip`);
  - `MemosClient._handle_response_error` (`handleResponseError`);
  - the retry loop of `MemosClient._request` (`requestAux` / `request`),
    instrumented with the number of transport attempts performed and the list
    of backoff waits, in order;
  - the lifecycle methods `connect`, `disconnect` and `health_check`.

Network behaviour is abstracted as an oracle `transport : Nat → AttemptOutcome`
giving, for each 0-based attempt index, either a raised transport exception or
an HTTP response.
-/

set_option maxRecDepth 10000

namespace MemosApi

/-- An HTTP response as the client observes it: the numeric status code, the
response text, and the `detail` field of the JSON body when the body parses to
an object carrying one (`response.json().get("detail", ...)`); `none` models a
body whose JSON decoding or field lookup fails. -/
structure HttpResponse where
  status : Nat
  text : String
  detail : Option String
deriving DecidableEq

/-- Outcome of one transport-level attempt (`self._client.request(...)` or the
health probe's `self._client.get("/docs")`): either an exception raised by the
transport (connect error, timeout, ...) with its message, or a response. -/
inductive AttemptOutcome where
  | exn (message : String)
  | resp (response : HttpResponse)
deriving DecidableEq

/-- The exception taxonomy of `src/memos_api/exceptions.py`, restricted to what
`client.py` raises. `authentication` carries the fixed message
"Authentication failed" and status 401; `notFound` carries status 404;
`validation` carries status 400; `transport` stands for a non-Memos exception
propagating out of httpx. -/
inductive ClientError where
  | connection (message : String)
  | authentication
  | notFound (resource : String) (resourceId : String)
  | validation (detail : String)
  | api (message : String) (status : Nat)
  | transport (message : String)
deriving DecidableEq

/-- The errors of the first `except` clause of `_request`
(`MemosAuthenticationError, MemosNotFoundError, MemosValidationError`): these
are re-raised immediately and never retried. -/
def ClientError.isTerminal : ClientError → Bool
  | .authentication => true
  | .notFound _ _ => true
  | .validation _ => true
  | _ => false

/-- Mutable state of a `MemosClient`: whether `self._client` is set (a
transport handle exists), and the `connected` / `last_error` fields of
`self.connection_info`. -/
structure ClientState where
  hasClient : Bool
  connected : Bool
  lastError : Option String
deriving DecidableEq

/-- Python `list.split(sep)` semantics for a single-character separator, on
character lists: `"" ↦ [""]`, empty segments between consecutive separators are
kept. -/
def splitChars (c : Char) : List Char → List (List Char)
  | [] => [[]]
  | x :: xs =>
    if x = c then [] :: splitChars c xs
    else
      match splitChars c xs with
      | [] => [[x]]
      | y :: ys => (x :: y) :: ys

/-- Python `str.strip(c)` semantics on character lists: remove every leading
and trailing occurrence of `c`. -/
def pyStripChars (c : Char) (l : List Char) : List Char :=
  (((l.dropWhile (· = c)).reverse.dropWhile (· = c)).reverse)

/-- Python `str.strip(c)`. -/
def pyStrip (c : Char) (s : String) : String :=
  String.mk (pyStripChars c s.toList)

/-- Python `str.split(c)` for a one-character separator. -/
def pySplit (c : Char) (s : String) : List String :=
  (splitChars c s.toList).map (fun l => String.mk l)

/-- Python `str.rstrip(c)`: remove every trailing occurrence of `c`. -/
def pyRstrip (c : Char) (s : String) : String :=
  String.mk ((s.toList.reverse.dropWhile (· = c)).reverse)

/-- MemosClient._extract_resource_info, translated from the source:
`parts = endpoint.strip("/").split("/")`; if `len(parts) >= 3` and
`parts[1] == "v1"` then `resource = parts[2].rstrip("s")` and, when
`len(parts) >= 4`, `resource_id = parts[3]`; otherwise both are `""`. -/
def extractResourceInfo (endpoint : String) : String × String :=
  if 3 ≤ (pySplit '/' (pyStrip '/' endpoint)).length ∧
      (pySplit '/' (pyStrip '/' endpoint)).getD 1 "" = "v1" then
    (pyRstrip 's' ((pySplit '/' (pyStrip '/' endpoint)).getD 2 ""),
     if 4 ≤ (pySplit '/' (pyStrip '/' endpoint)).length then
       (pySplit '/' (pyStrip '/' endpoint)).getD 3 ""
     else "")
  else ("", "")

/-- MemosClient._handle_response_error, translated from the source. It is only
called on non-success responses; the chain is: 401, then 404 with a non-empty
extracted resource, then 400 (with the `detail` field of the body, defaulting
to "Validation failed"), then 5xx, then the generic fall-through. -/
def handleResponseError (r : HttpResponse) (endpoint : String) : ClientError :=
  if r.status = 401 then .authentication
  else if r.status = 404 ∧ (extractResourceInfo endpoint).1 ≠ "" then
    .notFound (extractResourceInfo endpoint).1 (extractResourceInfo endpoint).2
  else if r.status = 400 then .validation (r.detail.getD "Validation failed")
  else if 500 ≤ r.status ∧ r.status < 600 then
    .api ("Server error: " ++ r.text) r.status
  else
    .api ("HTTP " ++ toString r.status ++ ": " ++ r.text) r.status

/-- One iteration body of the `for attempt in range(...)` loop of `_request`:
a raised transport exception propagates as is; a response is returned when
`response.is_success` (httpx: `200 <= status < 300`), else
`_handle_response_error` raises. -/
def classifyAttempt (endpoint : String) (o : AttemptOutcome) :
    Except ClientError HttpResponse :=
  match o with
  | .exn m => .error (.transport m)
  | .resp r =>
    if 200 ≤ r.status ∧ r.status < 300 then .ok r
    else .error (handleResponseError r endpoint)

/-- Backoff wait of `_request` after a failed attempt with 0-based index
`attempt`: `wait_time = min(4 * (2**attempt), 10)`. -/
def backoffWait (attempt : Nat) : Nat :=
  min (4 * 2 ^ attempt) 10

instance {ε α : Type} [DecidableEq ε] [DecidableEq α] :
    DecidableEq (Except ε α) := fun x y =>
  match x, y with
  | .ok a, .ok b =>
    if h : a = b then .isTrue (by rw [h]) else .isFalse (by simp [h])
  | .error a, .error b =>
    if h : a = b then .isTrue (by rw [h]) else .isFalse (by simp [h])
  | .ok _, .error _ => .isFalse (by simp)
  | .error _, .ok _ => .isFalse (by simp)

/-- Everything observable about one `_request` call: how many transport
attempts were performed, the backoff waits performed (in order), and the final
outcome (the returned response, or the exception that propagates). -/
structure RequestTrace where
  attempts : Nat
  waits : List Nat
  result : Except ClientError HttpResponse
deriving DecidableEq

/-- The retry loop of `_request`, from the source. `attempt` is the current
0-based loop index, `rem` the number of loop iterations left (started at
`max(1, retries)`), `waits` the backoff waits performed so far. A terminal
error (first `except` clause) is re-raised immediately; any other failure is
retried while `attempt < retries - 1`, with a backoff wait, and re-raised on
the final attempt. The `rem = 0` case models the loop's fall-through, which is
unreachable because the final iteration always returns or raises. -/
def requestAux (retries : Nat) (endpoint : String)
    (transport : Nat → AttemptOutcome) :
    Nat → Nat → List Nat → RequestTrace
  | attempt, 0, waits =>
    ⟨attempt, waits, .error (.connection "Client not connected")⟩
  | attempt, rem + 1, waits =>
    match classifyAttempt endpoint (transport attempt) with
    | .ok r => ⟨attempt + 1, waits, .ok r⟩
    | .error e =>
      if e.isTerminal then ⟨attempt + 1, waits, .error e⟩
      else if attempt < retries - 1 then
        requestAux retries endpoint transport (attempt + 1) rem
          (waits ++ [backoffWait attempt])
      else ⟨attempt + 1, waits, .error e⟩

/-- MemosClient._request: raises `MemosConnectionError("Client not connected")`
with no attempt when `self._client` is unset, else runs the retry loop for
`max(1, retries)` iterations. -/
def request (st : ClientState) (retries : Nat) (endpoint : String)
    (transport : Nat → AttemptOutcome) : RequestTrace :=
  if st.hasClient then requestAux retries endpoint transport 0 (max 1 retries) []
  else ⟨0, [], .error (.connection "Client not connected")⟩

/-- MemosClient.health_check, from the source: `False` when `self._client` is
unset; otherwise probe `GET /docs`, return `status == 200`, and swallow every
exception into `False`. It never raises (totality of this function). -/
def healthCheck (st : ClientState) (probe : AttemptOutcome) : Bool :=
  if st.hasClient then
    match probe with
    | .exn _ => false
    | .resp r => r.status == 200
  else false

/-- Result of `MemosClient.connect`: the state it leaves behind and the
exception it raises, if any. -/
structure ConnectResult where
  state : ClientState
  error : Option ClientError
deriving DecidableEq

/-- MemosClient.connect, from the source: sets `self._client` (transport
construction itself is modelled as always succeeding), then runs
`health_check`. On a healthy probe it sets `connected = True`. Otherwise it
raises `MemosConnectionError("Health check failed for <base_url>")`, which the
`except MemosConnectionError: raise` clause re-raises without touching
`last_error`, without calling `disconnect`, and without clearing
`self._client`. The `except Exception` clause that records `last_error` and
disconnects is unreachable, because `health_check` swallows every probe
exception. -/
def connect (st : ClientState) (probe : AttemptOutcome) (baseUrl : String) :
    ConnectResult :=
  let st1 : ClientState := { st with hasClient := true }
  if healthCheck st1 probe then
    ⟨{ st1 with connected := true }, none⟩
  else
    ⟨st1, some (.connection ("Health check failed for " ++ baseUrl))⟩

/-- MemosClient.disconnect, from the source: close and clear `self._client`
when it is set (a no-op otherwise), then set `connected = False`. -/
def disconnect (st : ClientState) : ClientState :=
  { st with hasClient := false, connected := false }

/-- Removal of exactly one trailing occurrence of `c`, when there is one. -/
def stripOneTrailing (c : Char) (l : List Char) : List Char :=
  match l.reverse with
  | [] => []
  | y :: t => if y = c then t.reverse else l

/-- Resource extraction as the claim words it: split the path on `/`, discard
(all) empty segments, and when at least 3 segments remain with the second
equal to `"v1"`, return the third segment with one trailing `s` stripped and
the fourth segment (if present) as the id. Written from the spec's words, to
be compared with `extractResourceInfo`. -/
def specExtractResourceInfoClaimed (endpoint : String) : String × String :=
  if 3 ≤ ((splitChars '/' endpoint.toList).filter (· ≠ [])).length ∧
      String.mk (((splitChars '/' endpoint.toList).filter (· ≠ [])).getD 1 []) =
        "v1" then
    (String.mk (stripOneTrailing 's'
      (((splitChars '/' endpoint.toList).filter (· ≠ [])).getD 2 [])),
     String.mk (((splitChars '/' endpoint.toList).filter (· ≠ [])).getD 3 []))
  else ("", "")

/-- Discard the leading and the trailing run of empty segments of a split
path, keeping interior empty segments. -/
def dropOuterEmpty (l : List (List Char)) : List (List Char) :=
  ((l.dropWhile (· = [])).reverse.dropWhile (· = [])).reverse

/-- Removal of every trailing occurrence of `c`, written as a direct
recursion (an independent formulation of `rstrip`, used on the spec side). -/
def stripTrailing (c : Char) : List Char → List Char
  | [] => []
  | x :: xs =>
    match stripTrailing c xs with
    | [] => if x = c then [] else [x]
    | r => x :: r

/-- Helper describing how `splitChars` treats one character appended at the
end of the input when it is not the separator: it is appended to the last
segment. -/
def appendLast (x : Char) : List (List Char) → List (List Char)
  | [] => [[x]]
  | [y] => [y ++ [x]]
  | y :: z :: t => y :: appendLast x (z :: t)

/-- Resource extraction as the amended claim words it: split the path on `/`,
discard only the leading and trailing runs of empty segments (interior empty
segments are kept, and defeat the version-token test), and when at least 3
segments remain with the second equal to `"v1"`, return the third segment
with every trailing `s` stripped, and the fourth segment when present (else
the empty string) as the id. -/
def specExtractResourceInfoAmended (endpoint : String) : String × String :=
  if 3 ≤ (dropOuterEmpty (splitChars '/' endpoint.toList)).length ∧
      String.mk ((dropOuterEmpty (splitChars '/' endpoint.toList)).getD 1 []) =
        "v1" then
    (String.mk (stripTrailing 's'
      ((dropOuterEmpty (splitChars '/' endpoint.toList)).getD 2 [])),
     String.mk ((dropOuterEmpty (splitChars '/' endpoint.toList)).getD 3 []))
  else ("", "")

/-- Transient failure in the claims' sense: a transport-level failure, or an
HTTP response with a 5xx status. -/
def isTransientOutcome : AttemptOutcome → Prop
  | .exn _ => True
  | .resp r => 500 ≤ r.status ∧ r.status < 600

instance (o : AttemptOutcome) : Decidable (isTransientOutcome o) :=
  match o with
  | .exn _ => isTrue trivial
  | .resp _ => instDecidableAnd

/-- Response whose status falls through to the final `else` branch of
`_handle_response_error` on the given endpoint: not a success, not 400, 401,
5xx, and not a 404 with a resolvable resource. -/
def isGenericStatus (endpoint : String) (r : HttpResponse) : Prop :=
  ¬ (200 ≤ r.status ∧ r.status < 300) ∧ r.status ≠ 400 ∧ r.status ≠ 401 ∧
    ¬ (500 ≤ r.status ∧ r.status < 600) ∧
    ¬ (r.status = 404 ∧ (extractResourceInfo endpoint).1 ≠ "")

instance (endpoint : String) (r : HttpResponse) :
    Decidable (isGenericStatus endpoint r) := by
  unfold isGenericStatus; infer_instance

/-! ### Unfolding lemmas for the retry loop -/

theorem requestAux_zero (R : Nat) (ep : String) (t : Nat → AttemptOutcome)
    (a : Nat) (w : List Nat) :
    requestAux R ep t a 0 w =
      ⟨a, w, .error (.connection "Client not connected")⟩ := rfl

theorem requestAux_ok {ep : String} {t : Nat → AttemptOutcome} {a : Nat}
    {r : HttpResponse} (h : classifyAttempt ep (t a) = .ok r)
    (R n : Nat) (w : List Nat) :
    requestAux R ep t a (n + 1) w = ⟨a + 1, w, .ok r⟩ := by
  simp [requestAux, h]

theorem requestAux_err_terminal {ep : String} {t : Nat → AttemptOutcome}
    {a : Nat} {e : ClientError} (h : classifyAttempt ep (t a) = .error e)
    (ht : e.isTerminal = true) (R n : Nat) (w : List Nat) :
    requestAux R ep t a (n + 1) w = ⟨a + 1, w, .error e⟩ := by
  simp [requestAux, h, ht]

theorem requestAux_err_retry {R : Nat} {ep : String} {t : Nat → AttemptOutcome}
    {a : Nat} {e : ClientError} (h : classifyAttempt ep (t a) = .error e)
    (ht : e.isTerminal = false) (hlt : a < R - 1) (n : Nat) (w : List Nat) :
    requestAux R ep t a (n + 1) w =
      requestAux R ep t (a + 1) n (w ++ [backoffWait a]) := by
  simp [requestAux, h, ht, hlt]

theorem requestAux_err_final {R : Nat} {ep : String} {t : Nat → AttemptOutcome}
    {a : Nat} {e : ClientError} (h : classifyAttempt ep (t a) = .error e)
    (ht : e.isTerminal = false) (hge : ¬ a < R - 1) (n : Nat) (w : List Nat) :
    requestAux R ep t a (n + 1) w = ⟨a + 1, w, .error e⟩ := by
  simp [requestAux, h, ht, hge]

/-! ### Attempt counting and the backoff-wait trace -/

theorem requestAux_attempts_ge (R : Nat) (ep : String)
    (t : Nat → AttemptOutcome) :
    ∀ rem a w, a ≤ (requestAux R ep t a rem w).attempts := by
  intro rem
  induction rem with
  | zero => intro a w; rw [requestAux_zero]
  | succ n ih =>
    intro a w
    cases hc : classifyAttempt ep (t a) with
    | ok r => rw [requestAux_ok hc]; exact Nat.le_succ a
    | error e =>
      cases hte : e.isTerminal with
      | true => rw [requestAux_err_terminal hc hte]; exact Nat.le_succ a
      | false =>
        by_cases hlt : a < R - 1
        · rw [requestAux_err_retry hc hte hlt]
          have := ih (a + 1) (w ++ [backoffWait a])
          omega
        · rw [requestAux_err_final hc hte hlt]; exact Nat.le_succ a

theorem requestAux_attempts_succ (R : Nat) (ep : String)
    (t : Nat → AttemptOutcome) (n a : Nat) (w : List Nat) :
    a + 1 ≤ (requestAux R ep t a (n + 1) w).attempts := by
  cases hc : classifyAttempt ep (t a) with
  | ok r => rw [requestAux_ok hc]
  | error e =>
    cases hte : e.isTerminal with
    | true => rw [requestAux_err_terminal hc hte]
    | false =>
      by_cases hlt : a < R - 1
      · rw [requestAux_err_retry hc hte hlt]
        exact requestAux_attempts_ge R ep t n (a + 1) (w ++ [backoffWait a])
      · rw [requestAux_err_final hc hte hlt]

theorem requestAux_waits (R : Nat) (ep : String) (t : Nat → AttemptOutcome) :
    ∀ rem a w, a + rem = max 1 R →
    (requestAux R ep t a rem w).waits =
      w ++ (List.range' a ((requestAux R ep t a rem w).attempts - 1 - a)).map
        backoffWait := by
  intro rem
  induction rem with
  | zero => intro a w _; rw [requestAux_zero]; simp
  | succ n ih =>
    intro a w hsum
    cases hc : classifyAttempt ep (t a) with
    | ok r => rw [requestAux_ok hc]; simp
    | error e =>
      cases hte : e.isTerminal with
      | true => rw [requestAux_err_terminal hc hte]; simp
      | false =>
        by_cases hlt : a < R - 1
        · rw [requestAux_err_retry hc hte hlt]
          have hn : 1 ≤ n := by omega
          have hih := ih (a + 1) (w ++ [backoffWait a]) (by omega)
          rw [hih]
          obtain ⟨m, hm⟩ : ∃ m, m = (requestAux R ep t (a + 1) n
              (w ++ [backoffWait a])).attempts := ⟨_, rfl⟩
          rw [← hm]
          have hm2 : a + 2 ≤ m := by
            obtain ⟨n', hn'⟩ : ∃ n', n = n' + 1 := ⟨n - 1, by omega⟩
            rw [hm, hn']
            exact requestAux_attempts_succ R ep t n' (a + 1)
              (w ++ [backoffWait a])
          rw [show m - 1 - a = (m - 1 - (a + 1)) + 1 from by omega,
            List.range'_succ]
          simp
        · rw [requestAux_err_final hc hte hlt]; simp

theorem requestAux_allFail (R : Nat) (ep : String) (t : Nat → AttemptOutcome)
    (hfail : ∀ i, i < max 1 R →
      ∃ e, classifyAttempt ep (t i) = .error e ∧ e.isTerminal = false) :
    ∀ rem a w, a + rem = max 1 R → 1 ≤ rem →
    requestAux R ep t a rem w =
      ⟨max 1 R, w ++ (List.range' a (max 1 R - 1 - a)).map backoffWait,
       classifyAttempt ep (t (max 1 R - 1))⟩ := by
  intro rem
  induction rem with
  | zero => intro a w _ h; omega
  | succ n ih =>
    intro a w hsum _
    obtain ⟨e, he, hte⟩ := hfail a (by omega)
    by_cases hlt : a < R - 1
    · rw [requestAux_err_retry he hte hlt]
      have hn : 1 ≤ n := by omega
      rw [ih (a + 1) (w ++ [backoffWait a]) (by omega) hn]
      have hmax : max 1 R - 1 - a = (max 1 R - 1 - (a + 1)) + 1 := by omega
      rw [hmax, List.range'_succ]
      simp
    · rw [requestAux_err_final he hte hlt]
      have ha : a + 1 = max 1 R := by omega
      rw [show max 1 R - 1 - a = 0 from by omega, List.range'_zero,
        show max 1 R - 1 = a from by omega, he, ← ha]
      simp

/-! ### Which attempt outcomes are retried -/

theorem classify_transient (ep : String) {o : AttemptOutcome}
    (h : isTransientOutcome o) :
    ∃ e, classifyAttempt ep o = .error e ∧ e.isTerminal = false := by
  cases o with
  | exn m => exact ⟨.transport m, rfl, rfl⟩
  | resp r =>
    obtain ⟨h5, h6⟩ := h
    refine ⟨.api ("Server error: " ++ r.text) r.status, ?_, rfl⟩
    simp only [classifyAttempt, handleResponseError]
    rw [if_neg (by omega), if_neg (by omega),
      if_neg (by rintro ⟨h4, _⟩; omega), if_neg (by omega), if_pos ⟨h5, h6⟩]

theorem classify_generic (ep : String) {r : HttpResponse}
    (h : isGenericStatus ep r) :
    classifyAttempt ep (.resp r) =
      .error (.api ("HTTP " ++ toString r.status ++ ": " ++ r.text)
        r.status) := by
  obtain ⟨h2xx, h400, h401, h5xx, h404⟩ := h
  simp only [classifyAttempt, handleResponseError]
  rw [if_neg h2xx, if_neg h401, if_neg h404, if_neg h400, if_neg h5xx]

/-! ### The claims -/

/-- C1: for every configured retries value `N ≥ 1`, a request whose every
attempt fails with a transient failure (transport failure or 5xx) is attempted
exactly `N` times and the failure finally raised is the one encountered on the
last attempt (the classification of the last attempt's outcome); when retries
is 0, exactly one attempt is still made and the failure of that one attempt is
raised. -/
theorem requestTransientExhaustion (st : ClientState) (R : Nat) (ep : String)
    (t : Nat → AttemptOutcome) (hc : st.hasClient = true)
    (hfail : ∀ i, i < max 1 R → isTransientOutcome (t i)) :
    (1 ≤ R → (request st R ep t).attempts = R ∧
      (request st R ep t).result = classifyAttempt ep (t (R - 1))) ∧
    (R = 0 → (request st R ep t).attempts = 1 ∧
      (request st R ep t).result = classifyAttempt ep (t 0)) := by
  have hreq : request st R ep t = requestAux R ep t 0 (max 1 R) [] := by
    simp [request, hc]
  have hall := requestAux_allFail R ep t
    (fun i hi => classify_transient ep (hfail i hi)) (max 1 R) 0 []
    (by omega) (by omega)
  rw [hreq, hall]
  constructor
  · intro hR
    rw [show max 1 R = R from by omega]
    exact ⟨rfl, rfl⟩
  · intro hR
    subst hR
    exact ⟨rfl, rfl⟩

/-- Witness for C1: three transport-level failures with `retries = 3` give
exactly 3 attempts and surface the transport failure of the last attempt. -/
theorem requestTransientExhaustionWitness :
    (request ⟨true, true, none⟩ 3 "/api/v1/memos"
      (fun _ => .exn "connection refused")).attempts = 3 ∧
    (request ⟨true, true, none⟩ 3 "/api/v1/memos"
      (fun _ => .exn "connection refused")).result =
      .error (.transport "connection refused") := by
  have h := (requestTransientExhaustion ⟨true, true, none⟩ 3 "/api/v1/memos"
    (fun _ => .exn "connection refused") rfl (fun i _ => trivial)).1
    (by omega)
  exact ⟨h.1, h.2.trans (by decide)⟩

/-- C2: in every executed request, the list of backoff waits is exactly
`min(4 * 2 ^ i, 10)` for the 0-based attempt indices `i = 0, ..., attempts-2`
(the wait with index `i` is performed after failed attempt `i` and before
retry attempt `i + 1`; none is performed after the final attempt), so a run of
`N` attempts performs exactly `N - 1` backoff waits. -/
theorem requestBackoffSchedule (st : ClientState) (R : Nat) (ep : String)
    (t : Nat → AttemptOutcome) (hc : st.hasClient = true) :
    (request st R ep t).waits =
      (List.range ((request st R ep t).attempts - 1)).map
        (fun i => min (4 * 2 ^ i) 10) ∧
    (request st R ep t).waits.length = (request st R ep t).attempts - 1 := by
  have hreq : request st R ep t = requestAux R ep t 0 (max 1 R) [] := by
    simp [request, hc]
  have hw := requestAux_waits R ep t (max 1 R) 0 [] (by omega)
  rw [hreq]
  constructor
  · rw [hw, List.nil_append, Nat.sub_zero, List.range_eq_range']
    rfl
  · rw [hw]
    simp

/-- Witness for C2: `retries = 3`, two transport failures then a success —
exactly 2 backoff waits, of 4 then 8 seconds. -/
theorem requestBackoffScheduleWitness :
    (request ⟨true, true, none⟩ 3 "/api/v1/memos/1"
      (fun i => if i < 2 then .exn "t" else .resp ⟨200, "ok", none⟩)).waits =
      (List.range ((request ⟨true, true, none⟩ 3 "/api/v1/memos/1"
        (fun i => if i < 2 then .exn "t"
          else .resp ⟨200, "ok", none⟩)).attempts - 1)).map
        (fun i => min (4 * 2 ^ i) 10) ∧
    (request ⟨true, true, none⟩ 3 "/api/v1/memos/1"
      (fun i => if i < 2 then .exn "t" else .resp ⟨200, "ok", none⟩)).waits =
      [4, 8] := by
  refine ⟨(requestBackoffSchedule ⟨true, true, none⟩ 3 "/api/v1/memos/1"
    (fun i => if i < 2 then .exn "t" else .resp ⟨200, "ok", none⟩) rfl).1, ?_⟩
  decide

/-- C4: a 401 response on the first attempt makes the whole request fail with
`MemosAuthenticationError` after exactly one attempt, no backoff wait and no
retry, whatever the configured retries; likewise a 404 whose endpoint resolves
to a non-empty resource (`MemosNotFoundError`) and a 400
(`MemosValidationError`). -/
theorem requestTerminalSingleAttempt (st : ClientState) (R : Nat) (ep : String)
    (t : Nat → AttemptOutcome) (r : HttpResponse)
    (hc : st.hasClient = true) (h0 : t 0 = .resp r) :
    (r.status = 401 →
      request st R ep t = ⟨1, [], .error .authentication⟩) ∧
    (r.status = 404 → (extractResourceInfo ep).1 ≠ "" →
      request st R ep t = ⟨1, [], .error (.notFound
        (extractResourceInfo ep).1 (extractResourceInfo ep).2)⟩) ∧
    (r.status = 400 →
      request st R ep t =
        ⟨1, [], .error (.validation (r.detail.getD "Validation failed"))⟩) := by
  have hreq : request st R ep t = requestAux R ep t 0 (max 1 R) [] := by
    simp [request, hc]
  obtain ⟨n, hn⟩ : ∃ n, max 1 R = n + 1 := ⟨max 1 R - 1, by omega⟩
  refine ⟨?_, ?_, ?_⟩
  · intro h401
    have hcl : classifyAttempt ep (t 0) = .error .authentication := by
      rw [h0]
      simp only [classifyAttempt, handleResponseError]
      rw [if_neg (by omega), if_pos h401]
    rw [hreq, hn, requestAux_err_terminal hcl rfl]
  · intro h404 hres
    have hcl : classifyAttempt ep (t 0) = .error (.notFound
        (extractResourceInfo ep).1 (extractResourceInfo ep).2) := by
      rw [h0]
      simp only [classifyAttempt, handleResponseError]
      rw [if_neg (by omega), if_neg (by omega), if_pos ⟨h404, hres⟩]
    rw [hreq, hn, requestAux_err_terminal hcl rfl]
  · intro h400
    have hcl : classifyAttempt ep (t 0) = .error (.validation
        (r.detail.getD "Validation failed")) := by
      rw [h0]
      simp only [classifyAttempt, handleResponseError]
      rw [if_neg (by omega), if_neg (by omega),
        if_neg (by rintro ⟨h4, _⟩; omega), if_pos h400]
    rw [hreq, hn, requestAux_err_terminal hcl rfl]

/-- Witness for C4: a 401 with `retries = 5` — one attempt, no wait,
authentication error. -/
theorem requestTerminalSingleAttemptWitness :
    request ⟨true, true, none⟩ 5 "/api/v1/memos/1"
      (fun _ => .resp ⟨401, "", none⟩) =
      ⟨1, [], .error .authentication⟩ :=
  (requestTerminalSingleAttempt ⟨true, true, none⟩ 5 "/api/v1/memos/1"
    (fun _ => .resp ⟨401, "", none⟩) ⟨401, "", none⟩ rfl rfl).1 rfl

/-- C5 counterexample: a 403 response is NOT terminal for the retry loop: with
`retries = 2` and every attempt answering 403, two attempts are made (the
claim says exactly one) and one backoff wait of 4 seconds is performed before
the second. -/
theorem requestGenericStatusClaimRefuted :
    request ⟨true, true, none⟩ 2 "/api/v1/memos"
      (fun _ => .resp ⟨403, "Forbidden", none⟩) =
      ⟨2, [4], .error (.api "HTTP 403: Forbidden" 403)⟩ ∧
    (request ⟨true, true, none⟩ 2 "/api/v1/memos"
      (fun _ => .resp ⟨403, "Forbidden", none⟩)).attempts ≠ 1 := by
  constructor
  · decide
  · decide

/-- C5 (amended): a non-2xx status other than 400, 401,
404-with-resolvable-resource and 5xx (e.g. 403) is classified per attempt as a
generic API error carrying that numeric status code, but it is treated like a
transient failure and retried: when every attempt returns such a status, the
request makes `max 1 retries` attempts and finally raises the generic API
error of the last attempt. -/
theorem requestGenericStatusRetried (st : ClientState) (R : Nat) (ep : String)
    (t : Nat → AttemptOutcome) (hc : st.hasClient = true)
    (hfail : ∀ i, i < max 1 R → ∃ r, t i = .resp r ∧ isGenericStatus ep r) :
    (request st R ep t).attempts = max 1 R ∧
    ∀ r, t (max 1 R - 1) = .resp r →
      (request st R ep t).result =
        .error (.api ("HTTP " ++ toString r.status ++ ": " ++ r.text)
          r.status) := by
  have hreq : request st R ep t = requestAux R ep t 0 (max 1 R) [] := by
    simp [request, hc]
  have hall := requestAux_allFail R ep t
    (fun i hi => by
      obtain ⟨r, hr, hg⟩ := hfail i hi
      exact ⟨.api ("HTTP " ++ toString r.status ++ ": " ++ r.text) r.status,
        by rw [hr]; exact classify_generic ep hg, rfl⟩)
    (max 1 R) 0 [] (by omega) (by omega)
  rw [hreq, hall]
  refine ⟨rfl, ?_⟩
  intro r hr
  obtain ⟨r', hr', hg'⟩ := hfail (max 1 R - 1) (by omega)
  have hrr : r = r' := by
    rw [hr] at hr'
    injection hr'
  subst hrr
  show classifyAttempt ep (t (max 1 R - 1)) = _
  rw [hr']
  exact classify_generic ep hg'

/-- Witness for C5 (amended): the 403 run of the counterexample, obtained from
the amended theorem. -/
theorem requestGenericStatusRetriedWitness :
    (request ⟨true, true, none⟩ 2 "/api/v1/memos"
      (fun _ => .resp ⟨403, "Forbidden", none⟩)).attempts = 2 ∧
    (request ⟨true, true, none⟩ 2 "/api/v1/memos"
      (fun _ => .resp ⟨403, "Forbidden", none⟩)).result =
      .error (.api "HTTP 403: Forbidden" 403) := by
  have h := requestGenericStatusRetried ⟨true, true, none⟩ 2 "/api/v1/memos"
    (fun _ => .resp ⟨403, "Forbidden", none⟩) rfl
    (fun i _ => ⟨⟨403, "Forbidden", none⟩, rfl, by decide⟩)
  refine ⟨h.1.trans (by decide), ?_⟩
  have h2 := h.2 ⟨403, "Forbidden", none⟩ rfl
  exact h2.trans (by decide)

/-- C6 counterexample: the not-Connected states are not exactly the states
without a transport handle. After a `connect` whose health probe answers 500,
the connected flag is false, yet a subsequent request still performs one
attempt against the transport (the claim says zero attempts are made whenever
the session is not Connected). -/
theorem requestNotConnectedClaimRefuted :
    (connect ⟨false, false, none⟩ (.resp ⟨500, "", none⟩)
      "http://test").state.connected = false ∧
    (request (connect ⟨false, false, none⟩ (.resp ⟨500, "", none⟩)
        "http://test").state 1 "/api/v1/memos"
      (fun _ => .resp ⟨200, "ok", none⟩)).attempts = 1 := by
  constructor
  · decide
  · decide

/-- C6 (amended): whenever no transport handle exists (`self._client` unset —
which holds initially and after `disconnect`, but not after every failed
`connect`), executing a request fails immediately with
`MemosConnectionError("Client not connected")`, with zero transport attempts,
no backoff wait and no retry. -/
theorem requestNoTransportImmediate (st : ClientState) (R : Nat) (ep : String)
    (t : Nat → AttemptOutcome) (hc : st.hasClient = false) :
    request st R ep t = ⟨0, [], .error (.connection "Client not connected")⟩ := by
  simp [request, hc]

/-- Witness for C6 (amended): fresh client, `retries = 3`. -/
theorem requestNoTransportImmediateWitness :
    request ⟨false, false, none⟩ 3 "/api/v1/memos" (fun _ => .exn "x") =
      ⟨0, [], .error (.connection "Client not connected")⟩ :=
  requestNoTransportImmediate ⟨false, false, none⟩ 3 "/api/v1/memos"
    (fun _ => .exn "x") rfl

/-- C7 counterexample: with the health probe failing with a connection
refusal, `connect()` does fail with `MemosConnectionError` and the connected
flag stays false, but `last_error` is NOT populated: `health_check` swallows
the probe exception, `connect` re-raises its own `MemosConnectionError`
through the clause that records nothing, and `last_error` remains `None`. -/
theorem connectLastErrorClaimRefuted :
    (connect ⟨false, false, none⟩ (.exn "Connection refused")
      "http://localhost:5232").error =
      some (.connection "Health check failed for http://localhost:5232") ∧
    (connect ⟨false, false, none⟩ (.exn "Connection refused")
      "http://localhost:5232").state.connected = false ∧
    (connect ⟨false, false, none⟩ (.exn "Connection refused")
      "http://localhost:5232").state.lastError = none := by
  refine ⟨?_, ?_, ?_⟩ <;> decide

/-- C7 (amended): whenever the health probe during `connect()` fails
(including a connection refusal), `connect()` fails with
`MemosConnectionError("Health check failed for <base_url>")`; the connected
flag and `last_error` are left unchanged (so from a fresh client: connected
stays false and `last_error` stays `None` — it is not populated). The
transport handle, however, remains set. -/
theorem connectProbeFailureState (st : ClientState) (probe : AttemptOutcome)
    (u : String)
    (h : healthCheck { st with hasClient := true } probe = false) :
    connect st probe u =
      ⟨{ st with hasClient := true },
       some (.connection ("Health check failed for " ++ u))⟩ ∧
    (connect st probe u).state.connected = st.connected ∧
    (connect st probe u).state.lastError = st.lastError := by
  have hco : connect st probe u =
      ⟨{ st with hasClient := true },
       some (.connection ("Health check failed for " ++ u))⟩ := by
    simp [connect, h]
  exact ⟨hco, by rw [hco], by rw [hco]⟩

/-- Witness for C7 (amended): connection refusal on the probe. -/
theorem connectProbeFailureStateWitness :
    connect ⟨false, false, none⟩ (.exn "Connection refused") "http://test" =
      ⟨⟨true, false, none⟩,
       some (.connection "Health check failed for http://test")⟩ :=
  (connectProbeFailureState ⟨false, false, none⟩ (.exn "Connection refused")
    "http://test" rfl).1

/-- C8: on an endpoint path that does not match the shape the extractor
expects (fewer than 3 segments after the outer-slash strip and split, or a
second segment other than "v1"), the extracted resource type and id are both
empty strings, and a 404 response on such a path maps to the generic
`MemosAPIError` carrying status 404, not to `MemosNotFoundError`. -/
theorem unresolvedPathGenericError (ep : String)
    (h : ¬ (3 ≤ (pySplit '/' (pyStrip '/' ep)).length ∧
      (pySplit '/' (pyStrip '/' ep)).getD 1 "" = "v1")) :
    extractResourceInfo ep = ("", "") ∧
    ∀ r : HttpResponse, r.status = 404 →
      handleResponseError r ep =
        .api ("HTTP " ++ toString r.status ++ ": " ++ r.text) r.status := by
  have hext : extractResourceInfo ep = ("", "") := by
    simp only [extractResourceInfo]
    rw [if_neg h]
  refine ⟨hext, ?_⟩
  intro r h404
  simp only [handleResponseError]
  rw [if_neg (by omega),
    if_neg (by rintro ⟨_, hne⟩; rw [hext] at hne; exact hne rfl),
    if_neg (by omega), if_neg (by omega)]

/-- Witness for C8: a 404 on the one-segment path "/health". -/
theorem unresolvedPathGenericErrorWitness :
    extractResourceInfo "/health" = ("", "") ∧
    handleResponseError ⟨404, "Not Found", none⟩ "/health" =
      .api ("HTTP " ++ toString (404 : Nat) ++ ": " ++ "Not Found") 404 := by
  have h := unresolvedPathGenericError "/health" (by decide)
  exact ⟨h.1, h.2 ⟨404, "Not Found", none⟩ rfl⟩

/-- C9: `disconnect()` is idempotent — from any state it leaves the connected
flag false and no transport handle, and a second call leaves the state of the
first unchanged. (It is a total function of the state: it cannot fail.) -/
theorem disconnectIdempotent (st : ClientState) :
    disconnect (disconnect st) = disconnect st ∧
    (disconnect st).connected = false ∧
    (disconnect (disconnect st)).connected = false :=
  ⟨rfl, rfl, rfl⟩

/-- C10: `health_check()` is a total boolean function of the state and the
probe outcome (so it never raises); it returns true exactly when a transport
handle exists and the probe returned a response with status 200 — hence false
whenever the handle is missing or the probe raised. -/
theorem healthCheckCharacterization (st : ClientState)
    (probe : AttemptOutcome) :
    healthCheck st probe = true ↔
      st.hasClient = true ∧ ∃ r, probe = .resp r ∧ r.status = 200 := by
  obtain ⟨hc, co, le⟩ := st
  cases hc <;> cases probe <;> simp [healthCheck]

/-! ### Properties of the Python string functions, towards C3 -/

theorem splitChars_ne_nil (c : Char) (l : List Char) : splitChars c l ≠ [] := by
  induction l with
  | nil => simp [splitChars]
  | cons x xs ih =>
    by_cases hx : x = c
    · simp [splitChars, hx]
    · simp only [splitChars, if_neg hx]
      cases h : splitChars c xs with
      | nil => simp
      | cons y ys => simp

theorem appendLast_concat (x : Char) :
    ∀ (A : List (List Char)) (b : List Char),
      appendLast x (A ++ [b]) = A ++ [b ++ [x]] := by
  intro A
  induction A with
  | nil => intro b; rfl
  | cons a A ih =>
    intro b
    cases A with
    | nil => rfl
    | cons a2 A2 =>
      show a :: appendLast x ((a2 :: A2) ++ [b]) = a :: ((a2 :: A2) ++ [b ++ [x]])
      rw [ih b]

theorem splitChars_concat (c x : Char) :
    ∀ l, splitChars c (l ++ [x]) =
      if x = c then splitChars c l ++ [[]] else appendLast x (splitChars c l) := by
  intro l
  induction l with
  | nil =>
    by_cases hx : x = c <;> simp [splitChars, hx, appendLast]
  | cons a l ih =>
    by_cases ha : a = c
    · show splitChars c (a :: (l ++ [x])) = _
      rw [show splitChars c (a :: (l ++ [x])) =
        [] :: splitChars c (l ++ [x]) from by simp [splitChars, ha], ih]
      obtain ⟨z, t, hzt⟩ : ∃ z t, splitChars c l = z :: t := by
        cases h : splitChars c l with
        | nil => exact absurd h (splitChars_ne_nil c l)
        | cons z t => exact ⟨z, t, rfl⟩
      by_cases hx : x = c
      · rw [if_pos hx, if_pos hx,
          show splitChars c (a :: l) = [] :: splitChars c l from
            by simp [splitChars, ha]]
        rfl
      · rw [if_neg hx, if_neg hx,
          show splitChars c (a :: l) = [] :: splitChars c l from
            by simp [splitChars, ha], hzt]
        rfl
    · obtain ⟨z, t, hzt⟩ : ∃ z t, splitChars c l = z :: t := by
        cases h : splitChars c l with
        | nil => exact absurd h (splitChars_ne_nil c l)
        | cons z t => exact ⟨z, t, rfl⟩
      have hsplit : ∀ m (y : List Char) ys, splitChars c m = y :: ys →
          splitChars c (a :: m) = (a :: y) :: ys := by
        intro m y ys hm
        simp only [splitChars, if_neg ha, hm]
      by_cases hx : x = c
      · rw [if_pos hx]
        have h1 : splitChars c (l ++ [x]) = z :: (t ++ [[]]) := by
          rw [ih, if_pos hx, hzt]; rfl
        rw [show a :: l ++ [x] = a :: (l ++ [x]) from rfl,
          hsplit (l ++ [x]) z (t ++ [[]]) h1, hsplit l z t hzt]
        rfl
      · rw [if_neg hx]
        cases t with
        | nil =>
          have h1 : splitChars c (l ++ [x]) = [z ++ [x]] := by
            rw [ih, if_neg hx, hzt]; rfl
          rw [show a :: l ++ [x] = a :: (l ++ [x]) from rfl,
            hsplit (l ++ [x]) (z ++ [x]) [] h1, hsplit l z [] hzt]
          rfl
        | cons w t2 =>
          have h1 : splitChars c (l ++ [x]) = z :: appendLast x (w :: t2) := by
            rw [ih, if_neg hx, hzt]; rfl
          rw [show a :: l ++ [x] = a :: (l ++ [x]) from rfl,
            hsplit (l ++ [x]) z (appendLast x (w :: t2)) h1,
            hsplit l z (w :: t2) hzt]
          rfl

theorem splitChars_reverse (c : Char) :
    ∀ l, splitChars c l.reverse = ((splitChars c l).map List.reverse).reverse := by
  intro l
  induction l with
  | nil => rfl
  | cons x l ih =>
    rw [List.reverse_cons, splitChars_concat, ih]
    obtain ⟨z, t, hzt⟩ : ∃ z t, splitChars c l = z :: t := by
      cases h : splitChars c l with
      | nil => exact absurd h (splitChars_ne_nil c l)
      | cons z t => exact ⟨z, t, rfl⟩
    by_cases hx : x = c
    · rw [if_pos hx,
        show splitChars c (x :: l) = [] :: splitChars c l from
          by simp [splitChars, hx]]
      simp
    · rw [if_neg hx, hzt,
        show splitChars c (x :: l) = (x :: z) :: t from
          by simp only [splitChars, if_neg hx, hzt]]
      simp only [List.map_cons, List.reverse_cons, appendLast_concat]

theorem splitChars_dropWhile (c : Char) :
    ∀ l, l.dropWhile (· = c) ≠ [] →
      splitChars c (l.dropWhile (· = c)) =
        (splitChars c l).dropWhile (· = ([] : List Char)) := by
  intro l
  induction l with
  | nil => intro h; exact absurd rfl h
  | cons x l ih =>
    intro h
    by_cases hx : x = c
    · have hdw : (x :: l).dropWhile (· = c) = l.dropWhile (· = c) := by
        simp [List.dropWhile_cons, hx]
      rw [hdw] at h ⊢
      rw [ih h,
        show splitChars c (x :: l) = [] :: splitChars c l from
          by simp [splitChars, hx]]
      simp [List.dropWhile_cons]
    · have hdw : (x :: l).dropWhile (· = c) = x :: l := by
        simp [List.dropWhile_cons, hx]
      rw [hdw]
      obtain ⟨z, t, hzt⟩ : ∃ z t, splitChars c l = z :: t := by
        cases hs : splitChars c l with
        | nil => exact absurd hs (splitChars_ne_nil c l)
        | cons z t => exact ⟨z, t, rfl⟩
      rw [show splitChars c (x :: l) = (x :: z) :: t from
        by simp only [splitChars, if_neg hx, hzt]]
      simp [List.dropWhile_cons]

theorem splitChars_all_sep (c : Char) :
    ∀ l, (∀ x ∈ l, x = c) →
      splitChars c l = List.replicate (l.length + 1) [] := by
  intro l
  induction l with
  | nil => intro h; rfl
  | cons x l ih =>
    intro h
    have hx : x = c := h x (by simp)
    rw [show splitChars c (x :: l) = [] :: splitChars c l from
        by simp [splitChars, hx],
      ih (fun y hy => h y (by simp [hy]))]
    rfl

theorem dropWhile_nil_replicate (n : Nat) :
    (List.replicate n ([] : List Char)).dropWhile (· = ([] : List Char)) = [] := by
  induction n with
  | zero => rfl
  | succ m ih =>
    rw [List.replicate_succ, List.dropWhile_cons, if_pos (by simp)]
    exact ih

theorem dropWhile_eq_nil_of_all {α : Type} (p : α → Bool) :
    ∀ l : List α, (∀ x ∈ l.dropWhile p, p x = true) → l.dropWhile p = [] := by
  intro l
  induction l with
  | nil => intro _; rfl
  | cons x xs ih =>
    intro h
    rw [List.dropWhile_cons] at h ⊢
    by_cases hx : p x = true
    · rw [if_pos hx] at h ⊢
      exact ih h
    · rw [if_neg hx] at h
      exact absurd (h x (by simp)) hx

theorem pyStripChars_all_sep (c : Char) (l : List Char)
    (h : pyStripChars c l = []) : ∀ x ∈ l, x = c := by
  have h2 : ((l.dropWhile (· = c)).reverse).dropWhile (· = c) = [] := by
    have := congrArg List.reverse h
    simpa [pyStripChars] using this
  have h3 : ∀ x ∈ (l.dropWhile (· = c)).reverse, x = c := by
    intro x hx
    have := (List.dropWhile_eq_nil_iff.mp h2) x hx
    simpa using this
  have h4 : l.dropWhile (· = c) = [] := by
    apply dropWhile_eq_nil_of_all
    intro x hx
    simp [h3 x (List.mem_reverse.mpr hx)]
  intro x hx
  have := (List.dropWhile_eq_nil_iff.mp h4) x hx
  simpa using this

theorem stripTrailing_eq_rstrip (c : Char) :
    ∀ w : List Char, stripTrailing c w = (w.reverse.dropWhile (· = c)).reverse := by
  intro w
  induction w with
  | nil => rfl
  | cons x xs ih =>
    rw [show stripTrailing c (x :: xs) =
      (match stripTrailing c xs with
        | [] => if x = c then [] else [x]
        | r => x :: r) from rfl]
    rw [List.reverse_cons, List.dropWhile_append]
    cases hA : xs.reverse.dropWhile (· = c) with
    | nil =>
      have hxs : stripTrailing c xs = [] := by rw [ih, hA]; rfl
      rw [hxs]
      by_cases hx : x = c
      · simp [hx, List.dropWhile_cons]
      · simp [hx, List.dropWhile_cons]
    | cons z t =>
      have hxs : stripTrailing c xs = (z :: t).reverse := by rw [ih, hA]
      obtain ⟨u, us, hus⟩ : ∃ u us, (z :: t).reverse = u :: us := by
        cases hr : (z :: t).reverse with
        | nil => exact absurd (List.reverse_eq_nil_iff.mp hr) (by simp)
        | cons u us => exact ⟨u, us, rfl⟩
      rw [hxs, hus, if_neg (by simp : ¬((z :: t).isEmpty = true))]
      rw [show ((z :: t) ++ [x]).reverse = x :: (z :: t).reverse from
        by rw [List.reverse_append]; rfl, hus]

/-- Splitting after Python's two-sided strip is dropping the outer runs of
empty segments from the plain split, whenever the strip leaves something. -/
theorem splitChars_pyStrip (c : Char) (l : List Char)
    (h : pyStripChars c l ≠ []) :
    splitChars c (pyStripChars c l) = dropOuterEmpty (splitChars c l) := by
  have hd2 : (l.dropWhile (· = c)).reverse.dropWhile (· = c) ≠ [] := by
    intro hc
    apply h
    show ((l.dropWhile (· = c)).reverse.dropWhile (· = c)).reverse = []
    rw [hc]
    rfl
  have hd1 : l.dropWhile (· = c) ≠ [] := by
    intro hc
    apply hd2
    rw [hc]
    rfl
  show splitChars c (((l.dropWhile (· = c)).reverse.dropWhile (· = c)).reverse) = _
  rw [splitChars_reverse c ((l.dropWhile (· = c)).reverse.dropWhile (· = c)),
    splitChars_dropWhile c (l.dropWhile (· = c)).reverse hd2,
    splitChars_reverse c (l.dropWhile (· = c)),
    splitChars_dropWhile c l hd1]
  set S1 := (splitChars c l).dropWhile (· = ([] : List Char)) with hS1
  have e1 : (List.map List.reverse S1).reverse = List.map List.reverse S1.reverse :=
    (List.map_reverse List.reverse S1).symm
  rw [e1]
  have e2 : List.dropWhile (· = ([] : List Char))
        (List.map List.reverse S1.reverse) =
      List.map List.reverse
        (List.dropWhile (· = ([] : List Char)) S1.reverse) := by
    rw [List.dropWhile_map]
    congr 1
    congr 1
    funext y
    simp [Function.comp, List.reverse_eq_nil_iff]
  rw [e2]
  have e3 : List.map List.reverse (List.map List.reverse
        (List.dropWhile (· = ([] : List Char)) S1.reverse)) =
      List.dropWhile (· = ([] : List Char)) S1.reverse := by
    rw [List.map_map]
    have hid : (List.reverse ∘ List.reverse : List Char → List Char) = id := by
      funext y
      simp
    rw [hid, List.map_id]
  rw [e3, hS1]
  rfl

/-- C3 counterexample: the claimed extraction algorithm — discard all empty
segments, strip one trailing "s" — disagrees with the code. On
"/api/v1/press" the code strips every trailing "s" (`rstrip`), yielding "pre"
where the claim yields "pres"; on "/api//v1/memos" the code keeps the interior
empty segment, so the version-token test fails and it yields ("", "") where
the claim yields ("memo", ""). -/
theorem extractResourceInfoClaimRefuted :
    extractResourceInfo "/api/v1/press" = ("pre", "") ∧
    specExtractResourceInfoClaimed "/api/v1/press" = ("pres", "") ∧
    extractResourceInfo "/api/v1/press" ≠
      specExtractResourceInfoClaimed "/api/v1/press" ∧
    extractResourceInfo "/api//v1/memos" = ("", "") ∧
    specExtractResourceInfoClaimed "/api//v1/memos" = ("memo", "") := by
  refine ⟨by decide, by decide, by decide, by decide, by decide⟩

/-- C3 (amended): for every endpoint path, the extraction splits the path on
`/` after removing the leading and trailing runs of empty segments only
(interior empty segments are kept and defeat the shape test), and when at
least 3 segments remain with the second equal to the version token "v1", it
returns the third segment with every trailing "s" stripped as the resource
type and the fourth segment (if present) as the resource id; in particular
"/api/v1/memos/42" yields resource type "memo" and id "42". -/
theorem extractResourceInfoAmendedSpec :
    (∀ endpoint : String,
      extractResourceInfo endpoint = specExtractResourceInfoAmended endpoint) ∧
    extractResourceInfo "/api/v1/memos/42" = ("memo", "42") := by
  refine ⟨?_, by decide⟩
  intro ep
  by_cases h : pyStripChars '/' ep.toList = []
  · have hparts : pySplit '/' (pyStrip '/' ep) = [""] := by
      show (splitChars '/' (pyStripChars '/' ep.toList)).map
        (fun l => String.mk l) = [""]
      rw [h]
      rfl
    have hQ : dropOuterEmpty (splitChars '/' ep.toList) = [] := by
      rw [splitChars_all_sep '/' ep.toList (pyStripChars_all_sep '/' ep.toList h)]
      unfold dropOuterEmpty
      rw [dropWhile_nil_replicate]
      rfl
    unfold extractResourceInfo specExtractResourceInfoAmended
    rw [hparts, hQ, if_neg (by decide), if_neg (by decide)]
  · have key := splitChars_pyStrip '/' ep.toList h
    have hparts : pySplit '/' (pyStrip '/' ep) =
        (dropOuterEmpty (splitChars '/' ep.toList)).map (fun l => String.mk l) := by
      show (splitChars '/' (pyStripChars '/' ep.toList)).map
        (fun l => String.mk l) = _
      rw [key]
    unfold extractResourceInfo specExtractResourceInfoAmended
    rw [hparts]
    set Q := dropOuterEmpty (splitChars '/' ep.toList) with hQdef
    have e1 : (Q.map (fun l => String.mk l)).length = Q.length :=
      List.length_map Q _
    have e2 : (Q.map (fun l => String.mk l)).getD 1 "" = String.mk (Q.getD 1 []) :=
      @List.getD_map _ _ Q [] 1 (fun l => String.mk l)
    have e3 : (Q.map (fun l => String.mk l)).getD 2 "" = String.mk (Q.getD 2 []) :=
      @List.getD_map _ _ Q [] 2 (fun l => String.mk l)
    have e4 : (Q.map (fun l => String.mk l)).getD 3 "" = String.mk (Q.getD 3 []) :=
      @List.getD_map _ _ Q [] 3 (fun l => String.mk l)
    rw [e1, e2, e3, e4]
    by_cases hg : 3 ≤ Q.length ∧ String.mk (Q.getD 1 []) = "v1"
    · rw [if_pos hg, if_pos hg]
      have hres : pyRstrip 's' (String.mk (Q.getD 2 [])) =
          String.mk (stripTrailing 's' (Q.getD 2 [])) := by
        rw [stripTrailing_eq_rstrip]
        rfl
      rw [hres]
      by_cases h4 : 4 ≤ Q.length
      · rw [if_pos h4]
      · rw [if_neg h4, @List.getD_eq_default _ Q [] 3 (by omega)]
    · rw [if_neg hg, if_neg hg]

end MemosApi
